import Mathlib

/-!
# Verification of `md5sum.py` (Md5Win)

A shallow embedding of the checksum-verification workflow of `src/md5sum.py`:
the digest engine (`calculate_md5sum`), the manifest parser
(`get_encoding`, `process_md5_line`, the read loop of `check_md5`), the
verifier, and the reporter's line format (`print_line`).

Modelling conventions:
  * Text is `List Char` (`Str`); file bytes are `List Nat` (each < 256 in
    practice; the embedding never depends on that bound).
  * The filesystem is a function `Str → FileResult`, where a file is either
    readable with known content, missing (Python `FileNotFoundError` on
    `open`), or failing to open for another reason (`OSError`, e.g.
    permissions).
  * Python exceptions that the program does not catch are `Except.error`
    values (`PyErr.indexError` for `line_l[1]` on a short line,
    `PyErr.ioError` for a non-`FileNotFoundError` open failure).
  * `print(...)` and `eprint(...)` are modelled by accumulating the emitted
    lines into `stdout` / `stderr` lists carried in the results.
  * The MD5 primitive used through `hashlib` is implemented concretely
    (Merkle–Damgård over 64-byte blocks with the standard round constants);
    `hashlib`'s incremental object is the buffering context `MD5Ctx`, its
    `update` feeds bytes one at a time, and `hexdigest` pads and renders.
  * A text file read with `readline()` is modelled as the list of its
    logical lines (newline stripped); `readline` returning `''` at end of
    file corresponds to the end of the list.
-/

/-- Text, modelled as a list of characters. -/
abbrev Str := List Char

/-- Uncaught Python exceptions that the embedded code can raise. -/
inductive PyErr where
  | indexError
  | ioError
deriving DecidableEq, Repr

/-- Result of trying to open a file for binary reading. -/
inductive FileResult where
  | found (content : List Nat)
  | notFound
  | otherError
deriving DecidableEq, Repr

/-- The filesystem: what opening each path yields. -/
abbrev FS := Str → FileResult

/-- ASCII whitespace recognized by Python's `str.split()` / `str.strip()`. -/
def isPySpace (c : Char) : Bool :=
  c == ' ' || c == '\t' || c == '\n' || c == '\r' || c == '\x0b' || c == '\x0c'

/-- `HASH_CHARS` from the source: the characters a (lowercased) md5 hash may
contain. -/
def HASH_CHARS : List Char :=
  ['a', 'b', 'c', 'd', 'e', 'f',
   '0', '1', '2', '3', '4', '5', '6', '7', '8', '9']

/-- Helper for `words`: accumulates the current token (reversed) while
scanning. -/
def wordsAux (acc : Str) : Str → List Str
  | [] => if acc = [] then [] else [acc.reverse]
  | c :: cs =>
    if isPySpace c then
      if acc = [] then wordsAux [] cs else acc.reverse :: wordsAux [] cs
    else wordsAux (c :: acc) cs

/-- Python's `str.split()` with no argument: split on runs of whitespace,
discarding leading/trailing whitespace; never yields empty tokens. -/
def words (l : Str) : List Str := wordsAux [] l

/-- Python's `str.strip()`: remove leading and trailing whitespace. -/
def pyStrip (l : Str) : Str :=
  ((l.dropWhile isPySpace).reverse.dropWhile isPySpace).reverse

/-! ## The MD5 primitive (`hashlib.md5`) -/

/-- 2^32, the word modulus of MD5. -/
def M32 : Nat := 4294967296

/-- Rotate a 32-bit word left by `n` bits. -/
def rotl (x n : Nat) : Nat := (x * 2 ^ n + x / 2 ^ (32 - n)) % M32

/-- The 64 MD5 round constants, `floor(abs(sin(i+1)) * 2^32)`. -/
def md5K : List Nat :=
  [3614090360, 3905402710, 606105819, 3250441966, 4118548399, 1200080426,
   2821735955, 4249261313, 1770035416, 2336552879, 4294925233, 2304563134,
   1804603682, 4254626195, 2792965006, 1236535329, 4129170786, 3225465664,
   643717713, 3921069994, 3593408605, 38016083, 3634488961, 3889429448,
   568446438, 3275163606, 4107603335, 1163531501, 2850285829, 4243563512,
   1735328473, 2368359562, 4294588738, 2272392833, 1839030562, 4259657740,
   2763975236, 1272893353, 4139469664, 3200236656, 681279174, 3936430074,
   3572445317, 76029189, 3654602809, 3873151461, 530742520, 3299628645,
   4096336452, 1126891415, 2878612391, 4237533241, 1700485571, 2399980690,
   4293915773, 2240044497, 1873313359, 4264355552, 2734768916, 1309151649,
   4149444226, 3174756917, 718787259, 3951481745]

/-- The per-round left-rotation amounts of MD5. -/
def md5S : List Nat :=
  [7, 12, 17, 22, 7, 12, 17, 22, 7, 12, 17, 22, 7, 12, 17, 22,
   5, 9, 14, 20, 5, 9, 14, 20, 5, 9, 14, 20, 5, 9, 14, 20,
   4, 11, 16, 23, 4, 11, 16, 23, 4, 11, 16, 23, 4, 11, 16, 23,
   6, 10, 15, 21, 6, 10, 15, 21, 6, 10, 15, 21, 6, 10, 15, 21]

/-- Group a byte list into little-endian 32-bit words. -/
def toWordsLE : List Nat → List Nat
  | b0 :: b1 :: b2 :: b3 :: rest =>
    (b0 + 256 * b1 + 65536 * b2 + 16777216 * b3) :: toWordsLE rest
  | _ => []

/-- The MD5 compression function on one 64-byte block. -/
def md5Compress (a0 b0 c0 d0 : Nat) (block : List Nat) : Nat × Nat × Nat × Nat :=
  let m := toWordsLE block
  let r := (List.range 64).foldl (fun st i =>
    let a := st.1
    let b := st.2.1
    let c := st.2.2.1
    let d := st.2.2.2
    let fg : Nat × Nat :=
      if i < 16 then ((b &&& c) ||| ((b ^^^ 4294967295) &&& d), i)
      else if i < 32 then ((d &&& b) ||| ((d ^^^ 4294967295) &&& c), (5 * i + 1) % 16)
      else if i < 48 then (b ^^^ c ^^^ d, (3 * i + 5) % 16)
      else (c ^^^ (b ||| (d ^^^ 4294967295)), (7 * i) % 16)
    let f := (fg.1 + a + md5K.getD i 0 + m.getD fg.2 0) % M32
    (d, (b + rotl f (md5S.getD i 0)) % M32, b, c)) (a0, b0, c0, d0)
  ((a0 + r.1) % M32, (b0 + r.2.1) % M32, (c0 + r.2.2.1) % M32, (d0 + r.2.2.2) % M32)

/-- The state of an incremental `hashlib.md5()` object: chaining words,
buffered bytes of the current partial block, and the total byte count fed. -/
structure MD5Ctx where
  a : Nat
  b : Nat
  c : Nat
  d : Nat
  buf : List Nat
  len : Nat
deriving DecidableEq, Repr

/-- A fresh `hashlib.md5()` object. -/
def mdInit : MD5Ctx := ⟨1732584193, 4023233417, 2562383102, 271733878, [], 0⟩

/-- Feed one byte into an incremental MD5 object, compressing when a full
64-byte block has accumulated. -/
def mdStep (ctx : MD5Ctx) (byte : Nat) : MD5Ctx :=
  let buf := ctx.buf ++ [byte]
  if buf.length = 64 then
    let s := md5Compress ctx.a ctx.b ctx.c ctx.d buf
    ⟨s.1, s.2.1, s.2.2.1, s.2.2.2, [], ctx.len + 1⟩
  else ⟨ctx.a, ctx.b, ctx.c, ctx.d, buf, ctx.len + 1⟩

/-- `hashlib`'s `update`: feed a chunk of bytes. -/
def mdUpdate (ctx : MD5Ctx) (data : List Nat) : MD5Ctx := data.foldl mdStep ctx

/-- The 8 little-endian bytes of the fed bit length, modulo 2^64. -/
def lenBytesLE (len : Nat) : List Nat :=
  let bits := (8 * len) % (2 ^ 64)
  [bits % 256, bits / 256 % 256, bits / 65536 % 256, bits / 16777216 % 256,
   bits / 4294967296 % 256, bits / 1099511627776 % 256,
   bits / 281474976710656 % 256, bits / 72057594037927936 % 256]

/-- The MD5 padding for a message of `len` bytes: `0x80`, zeros to 56 mod 64,
then the bit length. -/
def mdPadding (len : Nat) : List Nat :=
  128 :: List.replicate ((120 - (len + 1) % 64) % 64) 0 ++ lenBytesLE len

/-- The 4 little-endian bytes of a 32-bit word. -/
def wordLE (w : Nat) : List Nat :=
  [w % 256, w / 256 % 256, w / 65536 % 256, w / 16777216 % 256]

/-- `hashlib`'s `digest()`: pad what was fed and serialize the state. -/
def mdDigestBytes (ctx : MD5Ctx) : List Nat :=
  let f := mdUpdate ctx (mdPadding ctx.len)
  wordLE f.a ++ wordLE f.b ++ wordLE f.c ++ wordLE f.d

/-- One lowercase hexadecimal digit: `0`..`9` then `a`..`f`. -/
def hexDigit (n : Nat) : Char :=
  if n < 10 then Char.ofNat (48 + n) else if n < 16 then Char.ofNat (87 + n) else '0'

/-- Render bytes as a lowercase hex string, two digits per byte. -/
def toHex : List Nat → Str
  | [] => []
  | b :: r => hexDigit (b / 16 % 16) :: hexDigit (b % 16) :: toHex r

/-- The standard one-shot MD5 digest of a whole byte string, as a lowercase
hex string (`hashlib.md5(m).hexdigest()`). -/
def md5Hex (m : List Nat) : Str := toHex (mdDigestBytes (mdUpdate mdInit m))

/-- `CHUNK_SIZE` from the source. -/
def CHUNK_SIZE : Nat := 4096

/-- The sequence of chunks `f.read(CHUNK_SIZE)` yields until exhausted.
Fuelled by the content length, which always suffices. -/
def readChunksAux : Nat → List Nat → List (List Nat)
  | 0, _ => []
  | fuel + 1, l =>
    if l = [] then []
    else l.take CHUNK_SIZE :: readChunksAux fuel (l.drop CHUNK_SIZE)

/-- All 4096-byte chunks of a file's content, in read order. -/
def readChunks (l : List Nat) : List (List Nat) := readChunksAux l.length l

/-- The digest `calculate_md5sum` computes on a readable file: each chunk is
fed into the incremental MD5 object, then `hexdigest()`. -/
def chunked_md5 (content : List Nat) : Str :=
  toHex (mdDigestBytes (List.foldl mdUpdate mdInit (readChunks content)))

/-- `calculate_md5sum(file_path)`: `None` on `FileNotFoundError`; any other
open failure is not caught and propagates. -/
def calculate_md5sum (fs : FS) (file_path : Str) : Except PyErr (Option Str) :=
  match fs file_path with
  | .found content => .ok (some (chunked_md5 content))
  | .notFound => .ok none
  | .otherError => .error .ioError

/-- `print_line(md5, file_path)`: the `'{}  {}'` digest-line format (two-space
separator) written to standard output. -/
def print_line (md5 : Str) (file_path : Str) : Str := md5 ++ ("  ").toList ++ file_path

/-! ## BOM detection (`get_encoding`) -/

/-- `codecs.BOM_UTF32_BE`. -/
def BOM_UTF32_BE : List Nat := [0, 0, 254, 255]

/-- `codecs.BOM_UTF32_LE`. -/
def BOM_UTF32_LE : List Nat := [255, 254, 0, 0]

/-- `codecs.BOM_UTF8`. -/
def BOM_UTF8 : List Nat := [239, 187, 191]

/-- `codecs.BOM_UTF16_LE`. -/
def BOM_UTF16_LE : List Nat := [255, 254]

/-- `codecs.BOM_UTF16_BE`. -/
def BOM_UTF16_BE : List Nat := [254, 255]

/-- `get_encoding(file_path)`: read the first 4 bytes and match BOMs, 4-byte
marks first; `None` when no BOM matches. -/
def get_encoding (bytes : List Nat) : Option Str :=
  let bom := bytes.take 4
  if bom = BOM_UTF32_BE then some ("utf-32-be").toList
  else if bom = BOM_UTF32_LE then some ("utf-32-le").toList
  else if bom.take 3 = BOM_UTF8 then some ("utf-8").toList
  else if bom.take 2 = BOM_UTF16_LE then some ("utf-16-le").toList
  else if bom.take 2 = BOM_UTF16_BE then some ("utf-16-be").toList
  else none

/-- The BOM table in the spec's stated priority order, each mark paired with
its encoding name. -/
def bomTable : List (List Nat × Str) :=
  [(BOM_UTF32_BE, ("utf-32-be").toList),
   (BOM_UTF32_LE, ("utf-32-le").toList),
   (BOM_UTF8, ("utf-8").toList),
   (BOM_UTF16_LE, ("utf-16-le").toList),
   (BOM_UTF16_BE, ("utf-16-be").toList)]

/-- First table entry whose mark is a prefix of the file's bytes. -/
def findBom : List (List Nat × Str) → List Nat → Option Str
  | [], _ => none
  | (bom, name) :: rest, bytes =>
    if bytes.take bom.length = bom then some name else findBom rest bytes

/-- Spec-side BOM detection, written from the spec's words: try each BOM as a
byte prefix in the priority order UTF-32BE, UTF-32LE, UTF-8, UTF-16LE,
UTF-16BE; fall back to no-BOM. For comparison with `get_encoding`. -/
def detectBom_spec (bytes : List Nat) : Option Str := findBom bomTable bytes

/-! ## Manifest parsing and verification (`process_md5_line`, `check_md5`) -/

/-- The `for c in md5_hash: if c not in HASH_CHARS: ...` loop of
`process_md5_line`, as a predicate: the loop falls through (no early
`return 1`) exactly when every character is in `HASH_CHARS`. -/
def isHexStr (h : Str) : Bool := h.all (fun c => decide (c ∈ HASH_CHARS))

/-- What one call of `process_md5_line` produces: the updated `targets` list,
the returned count (0 or 1), and the lines printed to stdout / stderr. -/
structure LineOut where
  targets : List (Str × Str)
  ret : Nat
  out : List Str
  err : List Str
deriving DecidableEq, Repr

/-- `process_md5_line(line, targets)`: split the line on whitespace, lowercase
the hash token, validate (length 32, hex characters, non-empty path), and
either append `(hash, path)` to `targets` (returning 0) or report and
return 1. Indexing `line_l[1]` on a line with fewer than two tokens raises
`IndexError`. -/
def process_md5_line (line : Str) (targets : List (Str × Str)) :
    Except PyErr LineOut :=
  match words line with
  | t0 :: t1 :: _ =>
    let md5_hash := t0.map Char.toLower
    let target := t1
    if md5_hash.length ≠ 32 then
      .ok ⟨targets, 1, [("Len ").toList ++ (Nat.repr md5_hash.length).toList],
           [("invalid hash length in line: ").toList ++ line]⟩
    else if isHexStr md5_hash = false then
      .ok ⟨targets, 1, [], [("invalid hash: ").toList ++ line]⟩
    else if target.length ≤ 0 then
      .ok ⟨targets, 1, [], [("invalid line: ").toList ++ line]⟩
    else
      .ok ⟨targets ++ [(md5_hash, target)], 0, [], []⟩
  | _ => .error .indexError

/-- The first-line BOM strip in `check_md5`: when an encoding was detected,
`line = line[1:]` removes the decoded BOM character from the first line. -/
def effLines (encoding : Option Str) (lines : List Str) : List Str :=
  match lines with
  | [] => []
  | l :: ls => (if encoding.isSome then l.drop 1 else l) :: ls

/-- The `readline` loop of `check_md5`: strip each line; on a line that
strips to empty, `continue` re-tests the now-empty `line` and the loop
exits (so the rest of the file is not read); otherwise accumulate
`process_md5_line`'s result and read on. -/
def parseLoop : List Str → List (Str × Str) → Nat → List Str → List Str →
    Except PyErr (List (Str × Str) × Nat × List Str × List Str)
  | [], targets, n_bad, out, err => .ok (targets, n_bad, out, err)
  | l :: rest, targets, n_bad, out, err =>
    let line := pyStrip l
    if line.length ≤ 0 then .ok (targets, n_bad, out, err)
    else
      match process_md5_line line targets with
      | .error e => .error e
      | .ok r => parseLoop rest r.targets (n_bad + r.ret) (out ++ r.out) (err ++ r.err)

/-- The verification loop of `check_md5`: recompute each target's digest and
print `<path>: OK` or `<path>: FAIL`, counting failures. Returns (number of
failed verifications, stdout lines). -/
def verifyLoop (fs : FS) : List (Str × Str) → Except PyErr (Nat × List Str)
  | [] => .ok (0, [])
  | (h, p) :: rest =>
    match calculate_md5sum fs p with
    | .error e => .error e
    | .ok d =>
      let okv : Bool := match d with
        | some dg => decide (dg = h)
        | none => false
      match verifyLoop fs rest with
      | .error e => .error e
      | .ok (n, outs) =>
        .ok ((if okv then n else n + 1),
             (p ++ (if okv then (": OK").toList else (": FAIL").toList)) :: outs)

/-- The observable outcome of `check_md5`: the parsed records, the invalid
manifest-line count, the failed-verification count, the two output streams,
and whether the process exits with status 1 (`sys.exit(1)` when
`n_bad > 0`). -/
structure CheckOut where
  targets : List (Str × Str)
  nInvalid : Nat
  nFailed : Nat
  out : List Str
  err : List Str
  exit1 : Bool
deriving DecidableEq, Repr

/-- `check_md5(md5_file)`: detect the manifest's BOM, strip it from the first
line when present, parse the lines into `targets` (counting invalid lines),
verify every target, and exit 1 when the combined bad count is positive.
`bytes` are the manifest's raw bytes (for BOM detection); `lines` its
decoded logical lines. -/
def check_md5 (fs : FS) (bytes : List Nat) (lines : List Str) :
    Except PyErr CheckOut :=
  let encoding := get_encoding bytes
  let encErr : List Str := match encoding with
    | some e => [("Hash file encoding ").toList ++ e]
    | none => []
  match parseLoop (effLines encoding lines) [] 0 [] [] with
  | .error e => .error e
  | .ok (targets, nInvalid, out1, err1) =>
    match verifyLoop fs targets with
    | .error e => .error e
    | .ok (nFailed, out2) =>
      let n_bad := nInvalid + nFailed
      .ok ⟨targets, nInvalid, nFailed, out1 ++ out2,
           encErr ++ err1 ++
             (if n_bad > 0 then
               [(Nat.repr n_bad).toList ++ (" files failed to pass hash check").toList]
              else []),
           decide (0 < n_bad)⟩

/-! ## Concrete fixtures used in the theorems below -/

/-- A filesystem on which every open raises `FileNotFoundError`. -/
def fsNone : FS := fun _ => .notFound

/-- A filesystem on which every open fails with a non-`FileNotFoundError`
error (e.g. `PermissionError`). -/
def fsOther : FS := fun _ => .otherError

/-- A filesystem where `x` is missing and every other open fails with a
non-`FileNotFoundError` error. -/
def fsMixed : FS := fun q => if q = ['x'] then .notFound else .otherError

/-- A filesystem holding one file whose name contains a space: `a b`, with
content the single byte 104. -/
def fsSpacePath : FS :=
  fun q => if q = ['a', ' ', 'b'] then .found [104] else .notFound

/-- A filesystem holding one file `f` with content the single byte 104. -/
def fsPlain : FS := fun q => if q = ['f'] then .found [104] else .notFound

/-! ## Helper lemmas -/

/-- Unfolding equation of `wordsAux` on the empty list. -/
theorem wordsAux_nil (acc : Str) :
    wordsAux acc [] = if acc = [] then [] else [acc.reverse] := rfl

/-- Unfolding equation of `wordsAux` on a cons. -/
theorem wordsAux_cons (acc : Str) (c : Char) (cs : Str) :
    wordsAux acc (c :: cs) =
      if isPySpace c then
        (if acc = [] then wordsAux [] cs else acc.reverse :: wordsAux [] cs)
      else wordsAux (c :: acc) cs := rfl

/-- Every token produced by `wordsAux` is non-empty. -/
theorem wordsAux_ne_nil : ∀ (l : Str) (acc : Str), ∀ w ∈ wordsAux acc l, w ≠ [] := by
  intro l
  induction l with
  | nil =>
    intro acc w hw
    rw [wordsAux_nil] at hw
    by_cases h : acc = []
    · simp [h] at hw
    · simp only [h, if_false] at hw
      simp only [List.mem_singleton] at hw
      simp [hw, h]
  | cons c cs ih =>
    intro acc w hw
    rw [wordsAux_cons] at hw
    by_cases hsp : isPySpace c
    · simp only [hsp, if_true] at hw
      by_cases h : acc = []
      · simp only [h, if_true] at hw
        exact ih [] w hw
      · simp only [h, if_false] at hw
        rcases List.mem_cons.mp hw with h1 | h2
        · simp [h1, h]
        · exact ih [] w h2
    · simp only [hsp, if_false] at hw
      exact ih (c :: acc) w hw

/-- Every token produced by Python's `split()` is non-empty. -/
theorem words_ne_nil (l : Str) : ∀ w ∈ words l, w ≠ [] :=
  wordsAux_ne_nil l []

/-- Scanning a whitespace-free block just accumulates it. -/
theorem wordsAux_nospace (t : Str) : ∀ (acc r : Str),
    (∀ c ∈ t, isPySpace c = false) → wordsAux acc (t ++ r) = wordsAux (t.reverse ++ acc) r := by
  induction t with
  | nil => intro acc r _; simp
  | cons c t' ih =>
    intro acc r h
    have hc : isPySpace c = false := h c (by simp)
    have ht' : ∀ x ∈ t', isPySpace x = false := fun x hx => h x (by simp [hx])
    show wordsAux acc (c :: (t' ++ r)) = _
    rw [wordsAux_cons]
    simp only [hc, Bool.false_eq_true, if_false]
    rw [ih (c :: acc) r ht']
    simp

/-- Splitting a line that starts with a whitespace-free token followed by a
whitespace character yields that token and then the split of the rest. -/
theorem words_sep (t0 : Str) (s : Char) (r : Str)
    (h0 : t0 ≠ []) (hn : ∀ c ∈ t0, isPySpace c = false) (hs : isPySpace s = true) :
    words (t0 ++ s :: r) = t0 :: words r := by
  unfold words
  rw [wordsAux_nospace t0 [] (s :: r) hn]
  simp only [List.append_nil]
  rw [wordsAux_cons]
  have h' : t0.reverse ≠ [] := by simpa using h0
  simp [hs, h']

/-- Splitting a single whitespace-free non-empty token yields just it. -/
theorem words_single (t0 : Str) (h0 : t0 ≠ []) (hn : ∀ c ∈ t0, isPySpace c = false) :
    words t0 = [t0] := by
  unfold words
  have h2 := wordsAux_nospace t0 [] [] hn
  simp only [List.append_nil] at h2
  rw [h2, wordsAux_nil]
  have h' : t0.reverse ≠ [] := by simpa using h0
  simp [h']

/-- A leading whitespace character is skipped by `split()`. -/
theorem words_cons_space (s : Char) (r : Str) (hs : isPySpace s = true) :
    words (s :: r) = words r := by
  unfold words
  rw [wordsAux_cons]
  simp [hs]

/-- `dropWhile` is the identity when the first element fails the predicate. -/
theorem dropWhile_eq_self_of_head (p : Char → Bool) (l : Str)
    (h : ∀ c ∈ l.head?, p c = false) : l.dropWhile p = l := by
  cases l with
  | nil => rfl
  | cons c t =>
    have hc : p c = false := h c (by simp)
    simp [List.dropWhile_cons, hc]

/-- `strip()` is the identity on a line with no leading or trailing
whitespace. -/
theorem pyStrip_eq_self (l : Str)
    (h1 : ∀ c ∈ l.head?, isPySpace c = false)
    (h2 : ∀ c ∈ l.getLast?, isPySpace c = false) : pyStrip l = l := by
  unfold pyStrip
  rw [dropWhile_eq_self_of_head isPySpace l h1]
  rw [dropWhile_eq_self_of_head isPySpace l.reverse (by simpa [List.head?_reverse] using h2)]
  exact List.reverse_reverse l

/-- Every hex digit the renderer can produce is in `HASH_CHARS`. -/
theorem hexDigit_mem (n : Nat) : hexDigit n ∈ HASH_CHARS := by
  unfold hexDigit
  by_cases h : n < 16
  · interval_cases n <;> decide
  · rw [if_neg (by omega), if_neg h]
    decide

/-- Every character of a rendered hex string is in `HASH_CHARS`. -/
theorem toHex_mem : ∀ (l : List Nat), ∀ c ∈ toHex l, c ∈ HASH_CHARS := by
  intro l
  induction l with
  | nil => intro c hc; simp [toHex] at hc
  | cons b r ih =>
    intro c hc
    unfold toHex at hc
    rcases List.mem_cons.mp hc with h1 | h2
    · exact h1 ▸ hexDigit_mem _
    · rcases List.mem_cons.mp h2 with h3 | h4
      · exact h3 ▸ hexDigit_mem _
      · exact ih c h4

/-- A rendered hex string has two characters per byte. -/
theorem toHex_length : ∀ (l : List Nat), (toHex l).length = 2 * l.length := by
  intro l
  induction l with
  | nil => rfl
  | cons b r ih => unfold toHex; simp [ih]; ring

/-- An MD5 digest is 16 bytes, whatever the context. -/
theorem mdDigestBytes_length (ctx : MD5Ctx) : (mdDigestBytes ctx).length = 16 := by
  unfold mdDigestBytes wordLE
  simp

/-- An MD5 hex digest is 32 characters long. -/
theorem md5Hex_length (m : List Nat) : (md5Hex m).length = 32 := by
  unfold md5Hex
  rw [toHex_length, mdDigestBytes_length]

/-- An MD5 hex digest is non-empty. -/
theorem md5Hex_ne_nil (m : List Nat) : md5Hex m ≠ [] := by
  intro h
  have := md5Hex_length m
  rw [h] at this
  simp at this

/-- Every character of an MD5 hex digest is in `HASH_CHARS`. -/
theorem md5Hex_mem (m : List Nat) : ∀ c ∈ md5Hex m, c ∈ HASH_CHARS :=
  fun c hc => toHex_mem _ c hc

/-- The characters of `HASH_CHARS` are already lowercase. -/
theorem hashChar_toLower (c : Char) (h : c ∈ HASH_CHARS) : Char.toLower c = c := by
  fin_cases h <;> decide

/-- The characters of `HASH_CHARS` are not whitespace. -/
theorem hashChar_not_space (c : Char) (h : c ∈ HASH_CHARS) : isPySpace c = false := by
  fin_cases h <;> decide

/-- Lowercasing an MD5 hex digest does not change it. -/
theorem md5Hex_map_toLower (m : List Nat) : (md5Hex m).map Char.toLower = md5Hex m := by
  rw [List.map_congr_left (fun c hc => hashChar_toLower c (md5Hex_mem m c hc))]
  exact List.map_id _

/-- An MD5 hex digest passes the `HASH_CHARS` character loop. -/
theorem md5Hex_isHexStr (m : List Nat) : isHexStr (md5Hex m) = true := by
  unfold isHexStr
  rw [List.all_eq_true]
  intro c hc
  simpa using md5Hex_mem m c hc

/-- Feeding chunks one `update` at a time is feeding their concatenation. -/
theorem foldl_mdUpdate_flatten : ∀ (L : List (List Nat)) (ctx : MD5Ctx),
    List.foldl mdUpdate ctx L = mdUpdate ctx L.flatten := by
  intro L
  induction L with
  | nil => intro ctx; rfl
  | cons a L' ih =>
    intro ctx
    show List.foldl mdUpdate (mdUpdate ctx a) L' = _
    rw [ih (mdUpdate ctx a)]
    unfold mdUpdate
    rw [List.flatten_cons, List.foldl_append]

/-- The chunks read by `f.read(CHUNK_SIZE)` concatenate back to the whole
content (for any sufficient fuel). -/
theorem readChunksAux_flatten : ∀ (fuel : Nat) (l : List Nat), l.length ≤ fuel →
    (readChunksAux fuel l).flatten = l := by
  intro fuel
  induction fuel with
  | zero =>
    intro l hl
    have : l = [] := List.eq_nil_of_length_eq_zero (Nat.le_zero.mp hl)
    simp [this, readChunksAux]
  | succ n ih =>
    intro l hl
    unfold readChunksAux
    by_cases h : l = []
    · simp [h]
    · simp only [h, if_false, List.flatten_cons]
      rw [ih (l.drop CHUNK_SIZE) ?_]
      · exact List.take_append_drop CHUNK_SIZE l
      · have h1 : 1 ≤ l.length := by
          cases l with
          | nil => exact absurd rfl h
          | cons a t => simp
        have h2 : (l.drop CHUNK_SIZE).length = l.length - CHUNK_SIZE := by simp
        rw [h2]
        show l.length - 4096 ≤ n
        omega

/-- All 4096-byte chunks of the content concatenate back to the content. -/
theorem readChunks_flatten (l : List Nat) : (readChunks l).flatten = l :=
  readChunksAux_flatten l.length l (Nat.le_refl _)

/-- The chunked digest of `calculate_md5sum` is the standard one-shot digest:
chunk boundaries do not matter. -/
theorem chunked_md5_eq_md5Hex (content : List Nat) :
    chunked_md5 content = md5Hex content := by
  unfold chunked_md5 md5Hex
  rw [foldl_mdUpdate_flatten, readChunks_flatten]

/-- The failure count of the verification loop is zero exactly when every
record's digest recomputes to its recorded hash. -/
theorem verifyLoop_zero_iff (fs : FS) : ∀ (ts : List (Str × Str)) (n : Nat) (outs : List Str),
    verifyLoop fs ts = .ok (n, outs) →
    (n = 0 ↔ ∀ t ∈ ts, calculate_md5sum fs t.2 = .ok (some t.1)) := by
  intro ts
  induction ts with
  | nil =>
    intro n outs h
    unfold verifyLoop at h
    simp only [Except.ok.injEq, Prod.mk.injEq] at h
    simp [← h.1]
  | cons t rest ih =>
    intro n outs h
    obtain ⟨hsh, p⟩ := t
    unfold verifyLoop at h
    cases hc : calculate_md5sum fs p with
    | error e => rw [hc] at h; exact absurd h (by simp)
    | ok d =>
      rw [hc] at h
      cases hv : verifyLoop fs rest with
      | error e => rw [hv] at h; exact absurd h (by simp)
      | ok pr =>
        obtain ⟨n', outs'⟩ := pr
        rw [hv] at h
        cases d with
        | some dg =>
          by_cases he : dg = hsh
          · simp only [he] at h
            simp at h
            have hn : n' = n := h.1
            constructor
            · intro h0
              intro t ht
              rcases List.mem_cons.mp ht with h1 | h2
              · rw [h1]
                show calculate_md5sum fs p = .ok (some hsh)
                rw [he] at hc
                exact hc
              · exact ((ih n' outs' hv).mp (by omega)) t h2
            · intro hall
              rw [← hn]
              exact (ih n' outs' hv).mpr (fun t ht => hall t (by simp [ht]))
          · simp [he] at h
            have hn : n' + 1 = n := h.1
            constructor
            · intro h0; omega
            · intro hall
              have hx := hall (hsh, p) (by simp)
              simp only at hx
              rw [hc] at hx
              simp only [Except.ok.injEq, Option.some.injEq] at hx
              exact absurd hx he
        | none =>
          simp at h
          have hn : n' + 1 = n := h.1
          constructor
          · intro h0; omega
          · intro hall
            have hx := hall (hsh, p) (by simp)
            simp only at hx
            rw [hc] at hx
            exact absurd hx (by simp)

/-- Unfolding of `process_md5_line` once the split of the line is known to
have at least two tokens. -/
theorem process_md5_line_eq (line : Str) (targets : List (Str × Str))
    (t0 t1 : Str) (rest : List Str) (hw : words line = t0 :: t1 :: rest) :
    process_md5_line line targets =
      if (t0.map Char.toLower).length ≠ 32 then
        .ok ⟨targets, 1,
             [("Len ").toList ++ (Nat.repr (t0.map Char.toLower).length).toList],
             [("invalid hash length in line: ").toList ++ line]⟩
      else if isHexStr (t0.map Char.toLower) = false then
        .ok ⟨targets, 1, [], [("invalid hash: ").toList ++ line]⟩
      else if t1.length ≤ 0 then
        .ok ⟨targets, 1, [], [("invalid line: ").toList ++ line]⟩
      else
        .ok ⟨targets ++ [(t0.map Char.toLower, t1)], 0, [], []⟩ := by
  unfold process_md5_line
  rw [hw]

/-- A line whose hash token is valid is accepted: the record is appended and
the returned count is 0 (the empty-path branch cannot fire). -/
theorem process_md5_line_accepts (line : Str) (targets : List (Str × Str))
    (t0 t1 : Str) (rest : List Str) (hw : words line = t0 :: t1 :: rest)
    (h32 : (t0.map Char.toLower).length = 32)
    (hhex : isHexStr (t0.map Char.toLower) = true) (ht1 : t1 ≠ []) :
    process_md5_line line targets =
      .ok ⟨targets ++ [(t0.map Char.toLower, t1)], 0, [], []⟩ := by
  rw [process_md5_line_eq line targets t0 t1 rest hw]
  rw [if_neg (by simp [h32])]
  rw [if_neg (by simp [hhex])]
  rw [if_neg (by
    intro hle
    exact ht1 (List.eq_nil_of_length_eq_zero (Nat.le_zero.mp hle)))]

/-- A single line that strips to itself and is accepted by
`process_md5_line` parses into exactly one record with no bad count. -/
theorem parseLoop_single_accept (l : Str) (h p : Str)
    (hstrip : pyStrip l = l) (hne : l ≠ [])
    (hproc : process_md5_line l [] = .ok ⟨[(h, p)], 0, [], []⟩) :
    parseLoop [l] [] 0 [] [] = .ok ([(h, p)], 0, [], []) := by
  show (if (pyStrip l).length ≤ 0 then Except.ok ([], 0, [], [])
        else match process_md5_line (pyStrip l) [] with
          | .error e => .error e
          | .ok r => parseLoop [] r.targets (0 + r.ret) ([] ++ r.out) ([] ++ r.err)) =
       Except.ok ([(h, p)], 0, [], [])
  rw [hstrip]
  rw [if_neg (by
    intro hle
    exact hne (List.eq_nil_of_length_eq_zero (Nat.le_zero.mp hle)))]
  rw [hproc]
  rfl

/-- A BOM-less manifest consisting of one accepted, matching record checks
clean: `<path>: OK`, no bad count, exit status 0. -/
theorem check_md5_single_ok (fs : FS) (l h p : Str)
    (hstrip : pyStrip l = l) (hne : l ≠ [])
    (hproc : process_md5_line l [] = .ok ⟨[(h, p)], 0, [], []⟩)
    (hcalc : calculate_md5sum fs p = .ok (some h)) :
    check_md5 fs [] [l] = .ok ⟨[(h, p)], 0, 0, [p ++ (": OK").toList], [], false⟩ := by
  have hparse := parseLoop_single_accept l h p hstrip hne hproc
  have hver : verifyLoop fs [(h, p)] = .ok (0, [p ++ (": OK").toList]) := by
    unfold verifyLoop
    rw [hcalc]
    simp [verifyLoop]
  have hred : check_md5 fs [] [l] =
      (match parseLoop [l] [] 0 [] [] with
       | .error e => .error e
       | .ok (targets, nInvalid, out1, err1) =>
         match verifyLoop fs targets with
         | .error e => .error e
         | .ok (nFailed, out2) =>
           .ok ⟨targets, nInvalid, nFailed, out1 ++ out2,
                err1 ++ (if nInvalid + nFailed > 0 then
                  [(Nat.repr (nInvalid + nFailed)).toList ++
                    (" files failed to pass hash check").toList]
                 else []),
                decide (0 < nInvalid + nFailed)⟩) := rfl
  rw [hred, hparse]
  show ((match verifyLoop fs [(h, p)] with
       | .error e => .error e
       | .ok (nFailed, out2) =>
         Except.ok ⟨[(h, p)], 0, nFailed, [] ++ out2,
              [] ++ (if 0 + nFailed > 0 then
                [(Nat.repr (0 + nFailed)).toList ++
                  (" files failed to pass hash check").toList]
               else []),
              decide (0 < 0 + nFailed)⟩) : Except PyErr CheckOut) = _
  rw [hver]
  rfl

/-- A BOM-less manifest consisting of one accepted record whose file is
missing checks dirty: `<path>: FAIL`, bad count 1, exit status 1. -/
theorem check_md5_single_fail (fs : FS) (l h p : Str)
    (hstrip : pyStrip l = l) (hne : l ≠ [])
    (hproc : process_md5_line l [] = .ok ⟨[(h, p)], 0, [], []⟩)
    (hcalc : calculate_md5sum fs p = .ok none) :
    check_md5 fs [] [l] =
      .ok ⟨[(h, p)], 0, 1, [p ++ (": FAIL").toList],
           [("1 files failed to pass hash check").toList], true⟩ := by
  have hparse := parseLoop_single_accept l h p hstrip hne hproc
  have hver : verifyLoop fs [(h, p)] = .ok (1, [p ++ (": FAIL").toList]) := by
    unfold verifyLoop
    rw [hcalc]
    simp [verifyLoop]
  have hred : check_md5 fs [] [l] =
      (match parseLoop [l] [] 0 [] [] with
       | .error e => .error e
       | .ok (targets, nInvalid, out1, err1) =>
         match verifyLoop fs targets with
         | .error e => .error e
         | .ok (nFailed, out2) =>
           .ok ⟨targets, nInvalid, nFailed, out1 ++ out2,
                err1 ++ (if nInvalid + nFailed > 0 then
                  [(Nat.repr (nInvalid + nFailed)).toList ++
                    (" files failed to pass hash check").toList]
                 else []),
                decide (0 < nInvalid + nFailed)⟩) := rfl
  rw [hred, hparse]
  show ((match verifyLoop fs [(h, p)] with
       | .error e => .error e
       | .ok (nFailed, out2) =>
         Except.ok ⟨[(h, p)], 0, nFailed, [] ++ out2,
              [] ++ (if 0 + nFailed > 0 then
                [(Nat.repr (0 + nFailed)).toList ++
                  (" files failed to pass hash check").toList]
               else []),
              decide (0 < 0 + nFailed)⟩) : Except PyErr CheckOut) = _
  rw [hver]
  rfl

/-- Splitting `<token>  <rest>` (two-space separator, whitespace-free
token). -/
theorem words_hash_line (d p2 : Str) (hdne : d ≠ [])
    (hdns : ∀ c ∈ d, isPySpace c = false) :
    words (d ++ ' ' :: ' ' :: p2) = d :: words p2 := by
  rw [words_sep d ' ' (' ' :: p2) hdne hdns (by decide)]
  rw [words_cons_space ' ' p2 (by decide)]

/-- `strip()` leaves `<token>  <rest>` unchanged when the token is
whitespace-free and the rest does not end in whitespace. -/
theorem pyStrip_hash_line (d p2 : Str) (hdne : d ≠ [])
    (hdns : ∀ c ∈ d, isPySpace c = false) (hp2 : p2 ≠ [])
    (hplast : ∀ c ∈ p2.getLast?, isPySpace c = false) :
    pyStrip (d ++ ' ' :: ' ' :: p2) = d ++ ' ' :: ' ' :: p2 := by
  apply pyStrip_eq_self
  · intro c hc
    cases d with
    | nil => exact absurd rfl hdne
    | cons c0 d' =>
      simp only [List.cons_append, List.head?_cons] at hc
      have hc0 : c0 = c := by simpa using hc
      rw [← hc0]
      exact hdns c0 (by simp)
  · intro c hc
    have h1 : (d ++ ' ' :: ' ' :: p2).getLast? = p2.getLast? := by
      rw [List.getLast?_append_of_ne_nil d (by simp)]
      show (([' ', ' '] : Str) ++ p2).getLast? = p2.getLast?
      exact List.getLast?_append_of_ne_nil _ hp2
    rw [h1] at hc
    exact hplast c hc

/-! ## Claim theorems -/

/-- C1 (code bug): a manifest line with fewer than two whitespace-separated
tokens does abort the whole parse: `line_l[1]` raises `IndexError`, so
`check_md5` on a manifest holding `abc` followed by a well-formed record
dies instead of counting the bad line and continuing. -/
theorem c1_missing_path_token_aborts_parse :
    check_md5 fsNone []
      [("abc").toList, ("aaaaaaaaaaaaaaaaaaaaaaaaaaaaaaaa  f").toList] =
      .error .indexError := by rfl

/-- C2 (code bug): a blank line terminates the read loop of `check_md5`
(`continue` re-tests the stripped, now-empty `line` and the `while` exits),
so the well-formed record after the blank line is never parsed or verified:
no targets, no output, exit status 0. -/
theorem c2_blank_line_terminates_read_loop :
    check_md5 fsNone [] [[], ("aaaaaaaaaaaaaaaaaaaaaaaaaaaaaaaa  f").toList] =
      .ok ⟨[], 0, 0, [], [], false⟩ := by rfl

/-- C3 counterexample: on an open failure that is not `FileNotFoundError`
(e.g. missing permission), `calculate_md5sum` does **not** return the
`None` sentinel — the exception propagates. -/
theorem c3_counterexample_other_open_failure :
    calculate_md5sum fsOther [] = .error .ioError ∧
    calculate_md5sum fsOther [] ≠ .ok none := by
  refine ⟨rfl, ?_⟩
  intro h
  rw [show calculate_md5sum fsOther [] = Except.error PyErr.ioError from rfl] at h
  exact Except.noConfusion h

/-- C3 amended: `calculate_md5sum` returns the `None` sentinel exactly for a
missing file (`FileNotFoundError`); any other open failure propagates as an
uncaught exception. -/
theorem c3_notfound_returns_none (fs : FS) (p : Str) :
    (fs p = .notFound → calculate_md5sum fs p = .ok none) ∧
    (fs p = .otherError → calculate_md5sum fs p = .error .ioError) := by
  constructor
  · intro h; unfold calculate_md5sum; rw [h]
  · intro h; unfold calculate_md5sum; rw [h]

/-- C3 witness: on `fsMixed`, the missing file `x` yields `None` and the
unreadable file `y` raises. -/
theorem c3_witness :
    calculate_md5sum fsMixed ['x'] = .ok none ∧
    calculate_md5sum fsMixed ['y'] = .error .ioError :=
  ⟨(c3_notfound_returns_none fsMixed ['x']).1 (by rfl),
   (c3_notfound_returns_none fsMixed ['y']).2 (by rfl)⟩

/-- C4: in check mode the process exit status is 1 exactly when the combined
bad count — invalid manifest lines plus failed verifications — is positive,
and the failed-verification count is zero exactly when every parsed record's
digest recomputes to its recorded hash. -/
theorem c4_exit_code_iff_bad_count (fs : FS) (bytes : List Nat)
    (lines : List Str) (r : CheckOut)
    (h : check_md5 fs bytes lines = .ok r) :
    (r.exit1 = true ↔ 0 < r.nInvalid + r.nFailed) ∧
    (r.nFailed = 0 ↔ ∀ t ∈ r.targets, calculate_md5sum fs t.2 = .ok (some t.1)) := by
  have h' : (match parseLoop (effLines (get_encoding bytes) lines) [] 0 [] [] with
    | .error e => (.error e : Except PyErr CheckOut)
    | .ok (targets, nInvalid, out1, err1) =>
      match verifyLoop fs targets with
      | .error e => .error e
      | .ok (nFailed, out2) =>
        .ok ⟨targets, nInvalid, nFailed, out1 ++ out2,
             (match get_encoding bytes with
              | some e => [("Hash file encoding ").toList ++ e]
              | none => []) ++ err1 ++
               (if nInvalid + nFailed > 0 then
                 [(Nat.repr (nInvalid + nFailed)).toList ++
                   (" files failed to pass hash check").toList]
                else []),
             decide (0 < nInvalid + nFailed)⟩) = .ok r := h
  clear h
  cases hp : parseLoop (effLines (get_encoding bytes) lines) [] 0 [] [] with
  | error e => rw [hp] at h'; exact absurd h' (by simp)
  | ok v =>
    obtain ⟨targets, nInvalid, out1, err1⟩ := v
    rw [hp] at h'
    simp only [] at h'
    cases hv : verifyLoop fs targets with
    | error e => rw [hv] at h'; exact absurd h' (by simp)
    | ok w =>
      obtain ⟨nFailed, out2⟩ := w
      rw [hv] at h'
      simp only [Except.ok.injEq] at h'
      subst h'
      constructor
      · simp
      · simpa using verifyLoop_zero_iff fs targets nFailed out2 hv

/-- C4 witness: one malformed line gives bad count 1 and exit status 1. -/
theorem c4_witness :
    check_md5 fsNone [] [("xyz abc").toList] =
      .ok ⟨[], 1, 0, [("Len 3").toList],
           [("invalid hash length in line: xyz abc").toList,
            ("1 files failed to pass hash check").toList], true⟩ ∧
    CheckOut.exit1 ⟨[], 1, 0, [("Len 3").toList],
           [("invalid hash length in line: xyz abc").toList,
            ("1 files failed to pass hash check").toList], true⟩ = true := by
  refine ⟨by rfl, ?_⟩
  exact ((c4_exit_code_iff_bad_count fsNone [] [("xyz abc").toList]
    ⟨[], 1, 0, [("Len 3").toList],
     [("invalid hash length in line: xyz abc").toList,
      ("1 files failed to pass hash check").toList], true⟩ (by rfl)).1).mpr (by decide)

/-- C5 counterexample: a non-blank line with only one whitespace-separated
token fails validation (its path token is missing) but is **not** counted
once — `line_l[1]` raises `IndexError` instead. -/
theorem c5_counterexample_one_token_line :
    process_md5_line (("abc").toList) [] = .error .indexError := by rfl

/-- C5 amended: for every non-blank manifest line that splits into at least
two whitespace-separated tokens, the record is accepted (appended, return
0) iff the lowercased hash token has length exactly 32 and only characters
from `[0-9a-f]`; the path token is automatically non-empty, and a line
failing validation is counted exactly once (return 1, nothing appended).
A line with fewer than two tokens instead raises `IndexError`. -/
theorem c5_accept_iff_valid_hash (line : Str) (targets : List (Str × Str))
    (t0 t1 : Str) (rest : List Str) (hw : words line = t0 :: t1 :: rest) :
    t1 ≠ [] ∧
    (process_md5_line line targets).toOption.map (fun r => (r.targets, r.ret)) =
      some (if (t0.map Char.toLower).length = 32 ∧ isHexStr (t0.map Char.toLower) = true
            then (targets ++ [(t0.map Char.toLower, t1)], 0)
            else (targets, 1)) := by
  have ht1 : t1 ≠ [] := words_ne_nil line t1 (by rw [hw]; simp)
  refine ⟨ht1, ?_⟩
  rw [process_md5_line_eq line targets t0 t1 rest hw]
  by_cases h32 : (t0.map Char.toLower).length = 32
  · by_cases hhex : isHexStr (t0.map Char.toLower) = true
    · rw [if_neg (by simp [h32]), if_neg (by simp [hhex]),
          if_neg (fun hle => ht1 (List.eq_nil_of_length_eq_zero (Nat.le_zero.mp hle)))]
      rw [if_pos ⟨h32, hhex⟩]
      rfl
    · rw [if_neg (by simp [h32])]
      rw [if_pos (by revert hhex; cases isHexStr (t0.map Char.toLower) <;> simp)]
      rw [if_neg (fun hc => hhex hc.2)]
      rfl
  · rw [if_pos h32]
    rw [if_neg (fun hc => h32 hc.1)]
    rfl

/-- C5 witness: a well-formed line (32 lowercase hex `a`s, two spaces, path
`f`) is accepted with return 0. -/
theorem c5_witness :
    ((['f'] : Str) ≠ []) ∧
    (process_md5_line (("aaaaaaaaaaaaaaaaaaaaaaaaaaaaaaaa  f").toList) []).toOption.map
        (fun r => (r.targets, r.ret)) =
      some (if ((("aaaaaaaaaaaaaaaaaaaaaaaaaaaaaaaa").toList).map Char.toLower).length = 32 ∧
               isHexStr ((("aaaaaaaaaaaaaaaaaaaaaaaaaaaaaaaa").toList).map Char.toLower) = true
            then ([] ++ [((("aaaaaaaaaaaaaaaaaaaaaaaaaaaaaaaa").toList).map Char.toLower, ['f'])], 0)
            else ([], 1)) :=
  c5_accept_iff_valid_hash (("aaaaaaaaaaaaaaaaaaaaaaaaaaaaaaaa  f").toList) []
    (("aaaaaaaaaaaaaaaaaaaaaaaaaaaaaaaa").toList) ['f'] [] (by rfl)

/-- C7: the digest computed by feeding 4096-byte chunks into the incremental
MD5 accumulator equals the standard one-shot MD5 of the whole content, a
lowercase hex string of exactly 32 characters — wherever the chunk
boundaries fall. -/
theorem c7_chunked_digest_eq_standard (content : List Nat) :
    chunked_md5 content = md5Hex content ∧
    (md5Hex content).length = 32 ∧ isHexStr (md5Hex content) = true :=
  ⟨chunked_md5_eq_md5Hex content, md5Hex_length content, md5Hex_isHexStr content⟩

/-- C7 witness at a one-byte content. -/
theorem c7_witness :
    chunked_md5 [104] = md5Hex [104] ∧
    (md5Hex [104]).length = 32 ∧ isHexStr (md5Hex [104]) = true :=
  c7_chunked_digest_eq_standard [104]

/-- C9 (code bug): on a line whose hash has invalid length,
`process_md5_line` prints the diagnostic `Len 3` on **standard output** (a
stray debug `print`), in addition to the stderr diagnostic. -/
theorem c9_len_diagnostic_printed_to_stdout :
    process_md5_line (("abc def").toList) [] =
      .ok ⟨[], 1, [("Len 3").toList],
           [("invalid hash length in line: abc def").toList]⟩ := by rfl

/-- C10: every token of a whitespace `split()` is non-empty, so once a line
reaches validation with two tokens, the path token is non-empty and the
`len(target) <= 0` rejection branch is unreachable: a line with a valid
hash is always accepted. -/
theorem c10_path_token_never_empty (line : Str) (targets : List (Str × Str)) :
    (∀ w ∈ words line, w ≠ []) ∧
    (∀ t0 t1 rest, words line = t0 :: t1 :: rest →
      (t0.map Char.toLower).length = 32 → isHexStr (t0.map Char.toLower) = true →
      process_md5_line line targets =
        .ok ⟨targets ++ [(t0.map Char.toLower, t1)], 0, [], []⟩) := by
  refine ⟨words_ne_nil line, ?_⟩
  intro t0 t1 rest hw h32 hhex
  exact process_md5_line_accepts line targets t0 t1 rest hw h32 hhex
    (words_ne_nil line t1 (by rw [hw]; simp))

/-- C10 witness: a valid line (32 `b`s, two spaces, path `g`) is accepted. -/
theorem c10_witness :
    process_md5_line (("bbbbbbbbbbbbbbbbbbbbbbbbbbbbbbbb  g").toList) [] =
      .ok ⟨[] ++ [((("bbbbbbbbbbbbbbbbbbbbbbbbbbbbbbbb").toList).map Char.toLower, ['g'])],
           0, [], []⟩ :=
  (c10_path_token_never_empty (("bbbbbbbbbbbbbbbbbbbbbbbbbbbbbbbb  g").toList) []).2
    (("bbbbbbbbbbbbbbbbbbbbbbbbbbbbbbbb").toList) ['g'] [] (by rfl) (by rfl) (by rfl)

/-- C6: BOM detection matches the spec's priority table (UTF-32BE, UTF-32LE,
UTF-8, UTF-16LE, UTF-16BE, each tried as a byte prefix in order, `none`
otherwise), and when a BOM is detected the decoded BOM character is dropped
from the first line while a BOM-less manifest's lines are unchanged. -/
theorem c6_bom_priority_and_strip (bytes : List Nat) (l : Str) (ls : List Str) :
    get_encoding bytes = detectBom_spec bytes ∧
    ((get_encoding bytes).isSome = true →
      effLines (get_encoding bytes) (l :: ls) = l.drop 1 :: ls) ∧
    (get_encoding bytes = none → effLines (get_encoding bytes) (l :: ls) = l :: ls) := by
  refine ⟨?_, ?_, ?_⟩
  · have ht3 : (bytes.take 4).take 3 = bytes.take 3 := by
      rw [List.take_take]; norm_num
    have ht2 : (bytes.take 4).take 2 = bytes.take 2 := by
      rw [List.take_take]; norm_num
    unfold get_encoding detectBom_spec
    simp only [findBom, bomTable, BOM_UTF32_BE, BOM_UTF32_LE, BOM_UTF8,
      BOM_UTF16_LE, BOM_UTF16_BE, List.length_cons, List.length_nil, ht3, ht2]
  · intro hs
    simp [effLines, hs]
  · intro hn
    simp [effLines, hn]

/-- C6 witness: a UTF-8 BOM (`EF BB BF`) is detected as `utf-8` in both
formulations, and the decoded BOM character is stripped from the first
line. -/
theorem c6_witness :
    get_encoding [239, 187, 191, 97] = detectBom_spec [239, 187, 191, 97] ∧
    effLines (get_encoding [239, 187, 191, 97]) [['\uFEFF', 'a']] = [['a']] :=
  ⟨(c6_bom_priority_and_strip [239, 187, 191, 97] ['\uFEFF', 'a'] []).1,
   (c6_bom_priority_and_strip [239, 187, 191, 97] ['\uFEFF', 'a'] []).2.1 (by rfl)⟩

/-- C8 counterexample: round-tripping fails for a path containing a space.
The file `a b` (content byte 104) hashes fine, but feeding the produced
`"<digest>  a b"` line back through the parser takes only `a` as the path
token, and verification prints `a: FAIL` (with exit status 1), not OK. -/
theorem c8_counterexample_space_in_path :
    calculate_md5sum fsSpacePath ['a', ' ', 'b'] = .ok (some (md5Hex [104])) ∧
    check_md5 fsSpacePath [] [print_line (md5Hex [104]) ['a', ' ', 'b']] =
      .ok ⟨[(md5Hex [104], ['a'])], 0, 1, [(['a'] : Str) ++ (": FAIL").toList],
           [("1 files failed to pass hash check").toList], true⟩ := by
  constructor
  · unfold calculate_md5sum
    rw [show fsSpacePath ['a', ' ', 'b'] = .found [104] from rfl]
    show Except.ok (some (chunked_md5 [104])) = _
    rw [chunked_md5_eq_md5Hex]
  · have hdne := md5Hex_ne_nil [104]
    have hdns : ∀ c ∈ md5Hex [104], isPySpace c = false :=
      fun c hc => hashChar_not_space c (md5Hex_mem [104] c hc)
    have hline : print_line (md5Hex [104]) ['a', ' ', 'b'] =
        md5Hex [104] ++ ' ' :: ' ' :: ['a', ' ', 'b'] := rfl
    rw [hline]
    apply check_md5_single_fail
    · exact pyStrip_hash_line _ _ hdne hdns (by decide) (by decide)
    · simp
    · have hw : words (md5Hex [104] ++ ' ' :: ' ' :: ['a', ' ', 'b']) =
          (md5Hex [104]) :: (['a'] : Str) :: [(['b'] : Str)] := by
        rw [words_hash_line _ _ hdne hdns]
        rfl
      have hacc := process_md5_line_accepts _ [] (md5Hex [104]) ['a'] [['b']] hw
        (by rw [md5Hex_map_toLower]; exact md5Hex_length [104])
        (by rw [md5Hex_map_toLower]; exact md5Hex_isHexStr [104]) (by decide)
      rw [md5Hex_map_toLower] at hacc
      simpa using hacc
    · unfold calculate_md5sum
      rw [show fsSpacePath ['a'] = .notFound from rfl]

/-- C8 amended: for every existing, readable file whose path is non-empty
and free of whitespace characters, hashing it and feeding the produced
`"<digest>  <path>"` line back through the manifest parser and verifier
yields `<path>: OK` with bad count 0 and exit status 0. -/
theorem c8_roundtrip_ok (fs : FS) (p : Str) (content : List Nat)
    (hf : fs p = .found content) (hp : p ≠ [])
    (hs : ∀ c ∈ p, isPySpace c = false) :
    check_md5 fs [] [print_line (md5Hex content) p] =
      .ok ⟨[(md5Hex content, p)], 0, 0, [p ++ (": OK").toList], [], false⟩ := by
  have hdne := md5Hex_ne_nil content
  have hdns : ∀ c ∈ md5Hex content, isPySpace c = false :=
    fun c hc => hashChar_not_space c (md5Hex_mem content c hc)
  have hplast : ∀ c ∈ p.getLast?, isPySpace c = false :=
    fun c hc => hs c (List.mem_of_mem_getLast? (by simp [hc]))
  have hline : print_line (md5Hex content) p = md5Hex content ++ ' ' :: ' ' :: p := rfl
  rw [hline]
  apply check_md5_single_ok
  · exact pyStrip_hash_line _ p hdne hdns hp hplast
  · simp
  · have hw : words (md5Hex content ++ ' ' :: ' ' :: p) =
        (md5Hex content) :: p :: [] := by
      rw [words_hash_line _ p hdne hdns, words_single p hp hs]
    have hacc := process_md5_line_accepts _ [] (md5Hex content) p [] hw
      (by rw [md5Hex_map_toLower]; exact md5Hex_length content)
      (by rw [md5Hex_map_toLower]; exact md5Hex_isHexStr content) hp
    rw [md5Hex_map_toLower] at hacc
    simpa using hacc
  · unfold calculate_md5sum
    rw [hf]
    show Except.ok (some (chunked_md5 content)) = _
    rw [chunked_md5_eq_md5Hex]

/-- C8 witness: the file `f` with content byte 104 round-trips to `f: OK`. -/
theorem c8_witness :
    check_md5 fsPlain [] [print_line (md5Hex [104]) ['f']] =
      .ok ⟨[(md5Hex [104], ['f'])], 0, 0, [(['f'] : Str) ++ (": OK").toList], [], false⟩ :=
  c8_roundtrip_ok fsPlain ['f'] [104] (by rfl) (by decide) (by decide)
